import Mathlib

/-!
# mtcp: a minimal TCP socket facade (src/src/mtcp/mtcp.c)

Shallow embedding of `mtcp_bind`, `mtcp_connect`, `mtcp_write` and `mtcp_read`.

Modelling conventions.

* The operating system is an arbitrary deterministic state machine `OS σ`: every
  system call takes the current OS state and returns its C return value together
  with the next state.  Quantifying over `OS σ` and its initial state quantifies
  over every possible outcome of every call.
* Every function returns a `Run`: the Lua-visible result, the list of system and
  allocator calls it issued, in order, and the final OS state.
* `mtcp_write` and `mtcp_read` take the Lua integers that `luaL_checkinteger`
  and `luaL_optinteger` hand over (64-bit `lua_Integer` values, with the
  defaults already filled in) and store them in their C `int` variables, which
  keeps the low 32 bits only.
* C `int` is 32 bits wide and `size_t` 64 bits (LP64).  Arithmetic on `int` wraps
  around in two's complement; conversions between integer types are modular.
* Lua API calls that build results are assumed not to raise memory errors and
  `malloc` is assumed to succeed.
-/

namespace Mtcp

/-! ## Constants -/

/-- The chunk size `BUFSIZE`. -/
def BUFSIZE : Int := 1024

/-- The listen backlog `BACKLOG`. -/
def BACKLOG : Int := 32

/-- The default read timeout `DEFAULT_TIMEOUT` in milliseconds. -/
def DEFAULT_TIMEOUT : Int := 10000

/-- Largest value of a C `int`. -/
def INT_MAX : Int := 2147483647

/-- Smallest value of a C `int`. -/
def INT_MIN : Int := -2147483648

/-- Value stored in a 32-bit C `int` (two's complement wrap-around). -/
def toInt (x : Int) : Int := (x + 2147483648) % 4294967296 - 2147483648

/-- Value converted to the 64-bit unsigned `size_t`. -/
def toSizeT (x : Int) : Int := x % 18446744073709551616

/-! ## Data model -/

/-- One entry of the `struct addrinfo` list returned by `getaddrinfo`;
`ai_addrlen` is the length of `ai_addr`. -/
structure Candidate where
  ai_family : Int
  ai_socktype : Int
  ai_protocol : Int
  ai_addr : List Nat
deriving DecidableEq, Repr

/-- System and allocator calls issued by the facade, with their return values. -/
inductive Event where
  /-- Call `getaddrinfo(host, service, &hints, &result)`; it allocates the list
  `result` when it returns 0. -/
  | getaddrinfo (host service : String) (ret : Int)
  /-- Call `freeaddrinfo(result)`. -/
  | freeaddrinfo
  /-- Call `socket(rp->ai_family, rp->ai_socktype, rp->ai_protocol)`. -/
  | socket (rp : Candidate) (ret : Int)
  /-- Call `bind(fd, rp->ai_addr, rp->ai_addrlen)`. -/
  | bind (fd : Int) (rp : Candidate) (ret : Int)
  /-- Call `connect(fd, rp->ai_addr, rp->ai_addrlen)`. -/
  | connect (fd : Int) (rp : Candidate) (ret : Int)
  /-- Call `listen(fd, backlog)`. -/
  | listen (fd backlog ret : Int)
  /-- Call `close(fd)`. -/
  | close (fd : Int)
  /-- Call `malloc(size)`. -/
  | malloc (size : Int)
  /-- Call `free(buf)`. -/
  | free
  /-- Call `poll(&pfd, 1, timeout)` with `pfd.fd = fd`. -/
  | poll (fd timeout ret : Int)
  /-- Call `read(fd, buf, count)`. -/
  | read (fd count ret : Int)
  /-- Call `write(fd, s + start, count)`: `start` is the position of the first
  byte relative to the start of the buffer `s` (0 is its first byte), `count`
  the `size_t` length. -/
  | write (fd start count ret : Int)
deriving DecidableEq, Repr

/-- What a call gives back to the Lua host. -/
inductive Ret where
  /-- Success of bind/connect: descriptor and raw address. -/
  | sock (fd : Int) (addr : List Nat)
  /-- Success of read: the accumulated bytes. -/
  | bytes (data : List Nat)
  /-- Success of write: the number of bytes written. -/
  | count (n : Int)
  /-- The failure pair `nil, "<tag>: <codes>"`. -/
  | failure (tag : String) (codes : List Int)
  /-- The call was aborted by `luaL_error`: nothing is returned. -/
  | fatal (msg : String)
  /-- Not a result of the C code: the loop budget of the model ran out while
  the read loop was still iterating. -/
  | running
deriving DecidableEq, Repr

/-- The operating system as a deterministic state machine over states `σ`. -/
structure OS (σ : Type) where
  getaddrinfo : σ → String → String → (Int × List Candidate) × σ
  socket : σ → Candidate → Int × σ
  bind : σ → Int → Candidate → Int × σ
  connect : σ → Int → Candidate → Int × σ
  listen : σ → Int → Int → Int × σ
  close : σ → Int → Int × σ
  poll : σ → Int → Int → Int × σ
  read : σ → Int → Int → (Int × List Nat) × σ
  write : σ → Int → Int → Int → Int × σ
  errno : σ → Int

/-- Outcome of one call of the facade. -/
structure Run (σ : Type) where
  ret : Ret
  trace : List Event
  st : σ

/-- State of the candidate loop when it exits: `winner` is `none` when
`rp == NULL`, otherwise the candidate `rp` and the descriptor `sfd`/`cfd`. -/
structure ScanExit (σ : Type) where
  winner : Option (Candidate × Int)
  n : Int
  trace : List Event
  st : σ

/-! ## bind and connect -/

/-- The `for (rp = result; rp != NULL; rp = rp->ai_next)` loop of `mtcp_bind`. -/
def bind_scan {σ : Type} (os : OS σ) : List Candidate → σ → Int → ScanExit σ
  | [], s, n => ⟨none, n, [], s⟩
  | rp :: rest, s, n =>
    let r1 := os.socket s rp
    if r1.1 = -1 then
      let e := bind_scan os rest r1.2 n
      ⟨e.winner, e.n, Event.socket rp r1.1 :: e.trace, e.st⟩
    else
      let r2 := os.bind r1.2 r1.1 rp
      if r2.1 = 0 then
        ⟨some (rp, r1.1), r2.1, [Event.socket rp r1.1, Event.bind r1.1 rp r2.1], r2.2⟩
      else
        let r3 := os.close r2.2 r1.1
        let e := bind_scan os rest r3.2 r2.1
        ⟨e.winner, e.n,
          Event.socket rp r1.1 :: Event.bind r1.1 rp r2.1 :: Event.close r1.1 :: e.trace, e.st⟩

/-- The function `mtcp_bind`: create a server socket, bind, then listen. -/
def mtcp_bind {σ : Type} (os : OS σ) (s : σ) (host service : String) : Run σ :=
  let g := os.getaddrinfo s host service
  if g.1.1 ≠ 0 then
    ⟨Ret.fatal "getaddrinfo (%s) %s", [Event.getaddrinfo host service g.1.1], g.2⟩
  else
    let e := bind_scan os g.1.2 g.2 g.1.1
    match e.winner with
    | none =>
      ⟨Ret.failure "bind error" [e.n, os.errno e.st],
        Event.getaddrinfo host service g.1.1 :: e.trace, e.st⟩
    | some (rp, sfd) =>
      let l := os.listen e.st sfd BACKLOG
      if l.1 ≠ 0 then
        ⟨Ret.failure "listen error" [l.1, os.errno l.2],
          Event.getaddrinfo host service g.1.1 :: (e.trace ++ [Event.listen sfd BACKLOG l.1]),
          l.2⟩
      else
        ⟨Ret.sock sfd rp.ai_addr,
          Event.getaddrinfo host service g.1.1 :: (e.trace ++ [Event.listen sfd BACKLOG l.1]),
          l.2⟩

/-- The `for (rp = result; rp != NULL; rp = rp->ai_next)` loop of `mtcp_connect`. -/
def connect_scan {σ : Type} (os : OS σ) : List Candidate → σ → Int → ScanExit σ
  | [], s, n => ⟨none, n, [], s⟩
  | rp :: rest, s, n =>
    let r1 := os.socket s rp
    if r1.1 = -1 then
      let e := connect_scan os rest r1.2 n
      ⟨e.winner, e.n, Event.socket rp r1.1 :: e.trace, e.st⟩
    else
      let r2 := os.connect r1.2 r1.1 rp
      if r2.1 = 0 then
        ⟨some (rp, r1.1), r2.1, [Event.socket rp r1.1, Event.connect r1.1 rp r2.1], r2.2⟩
      else
        let r3 := os.close r2.2 r1.1
        let e := connect_scan os rest r3.2 r2.1
        ⟨e.winner, e.n,
          Event.socket rp r1.1 :: Event.connect r1.1 rp r2.1 :: Event.close r1.1 :: e.trace,
          e.st⟩

/-- The function `mtcp_connect`: connect to a host. -/
def mtcp_connect {σ : Type} (os : OS σ) (s : σ) (host service : String) : Run σ :=
  let g := os.getaddrinfo s host service
  if g.1.1 ≠ 0 then
    ⟨Ret.fatal "getaddrinfo (%s) %s", [Event.getaddrinfo host service g.1.1], g.2⟩
  else
    let e := connect_scan os g.1.2 g.2 g.1.1
    match e.winner with
    | none =>
      ⟨Ret.failure "connect error" [e.n, os.errno e.st],
        Event.getaddrinfo host service g.1.1 :: e.trace, e.st⟩
    | some (rp, cfd) =>
      ⟨Ret.sock cfd rp.ai_addr, Event.getaddrinfo host service g.1.1 :: e.trace, e.st⟩

/-! ## write -/

/-- The function `mtcp_write`.  Its arguments are the Lua integers `fd`, `idx`
and `sbytes` and the string `s`; the integers are stored in the C variables
`int fd`, `int idx` and `int sbytes`, and `slen = s.length` is a `size_t`.  The
comparisons `idx > slen` and `idx + sbytes - 1 > slen` are made in `size_t`, as
C does when an `int` meets a `size_t`. -/
def mtcp_write {σ : Type} (os : OS σ) (st : σ) (fd : Int) (s : List Nat) (idx sbytes : Int) :
    Run σ :=
  let fd : Int := toInt fd
  let slen : Int := s.length
  let idx : Int := toInt idx
  let sbytes : Int := toInt sbytes
  if toSizeT idx > slen then
    ⟨Ret.fatal "write: idx (%d) too large", [], st⟩
  else
    let sbytes1 := if sbytes = 0 then toInt slen else sbytes
    let sbytes2 :=
      if toSizeT (toInt (idx + sbytes1 - 1)) > slen then toInt (toSizeT (slen - toSizeT idx + 1))
      else sbytes1
    let w := os.write st fd (idx - 1) (toSizeT sbytes2)
    let n := toInt w.1
    if n < 0 then
      ⟨Ret.failure "write error" [n, os.errno w.2],
        [Event.write fd (idx - 1) (toSizeT sbytes2) w.1], w.2⟩
    else
      ⟨Ret.count n, [Event.write fd (idx - 1) (toSizeT sbytes2) w.1], w.2⟩

/-- The bytes of the buffer `s` in the range of `count` bytes that starts
`start` bytes after its first byte; `none` when the range is not inside `s`. -/
def bytesAt (s : List Nat) (start count : Int) : Option (List Nat) :=
  if 0 ≤ start ∧ 0 ≤ count ∧ start + count ≤ s.length then
    some ((s.drop start.toNat).take count.toNat)
  else none

/-- The length the specification gives to the range written from a buffer of
length `L` for the 1-based start `offset` and the requested `count`: the rest
of the buffer from `offset` when `count` is 0 or `offset + count - 1` exceeds
`L`, and `count` otherwise. -/
def specCount (L offset count : Int) : Int :=
  if count = 0 ∨ offset + count - 1 > L then L - offset + 1 else count

/-! ## read -/

/-- The `while(1)` loop of `mtcp_read`, run for at most `fuel` iterations, on
the values of the C variables `int fd`, `int nbytes` and `int timeout`.
`b` is the Lua buffer accumulated so far and `rbytes` the C counter. -/
def read_loop {σ : Type} (os : OS σ) (fd nbytes timeout : Int) :
    Nat → σ → List Nat → Int → Run σ
  | 0, s, _, _ => ⟨Ret.running, [], s⟩
  | fuel + 1, s, b, rbytes =>
    let p := os.poll s fd timeout
    if p.1 < 0 then
      ⟨Ret.failure "poll error" [p.1, os.errno p.2],
        [Event.poll fd timeout p.1, Event.free], p.2⟩
    else if p.1 = 0 then
      ⟨Ret.failure "poll timeout" [], [Event.poll fd timeout p.1, Event.free], p.2⟩
    else
      let r := os.read p.2 fd BUFSIZE
      let n := toInt r.1.1
      if n = 0 then
        ⟨Ret.bytes b, [Event.poll fd timeout p.1, Event.read fd BUFSIZE r.1.1, Event.free], r.2⟩
      else if n < 0 then
        ⟨Ret.failure "read error" [n, os.errno r.2],
          [Event.poll fd timeout p.1, Event.read fd BUFSIZE r.1.1, Event.free], r.2⟩
      else
        let b1 := b ++ r.1.2.take n.toNat
        let rbytes1 := toInt (rbytes + n)
        if n < BUFSIZE then
          ⟨Ret.bytes b1,
            [Event.poll fd timeout p.1, Event.read fd BUFSIZE r.1.1, Event.free], r.2⟩
        else if rbytes1 ≥ nbytes then
          ⟨Ret.bytes b1,
            [Event.poll fd timeout p.1, Event.read fd BUFSIZE r.1.1, Event.free], r.2⟩
        else
          let e := read_loop os fd nbytes timeout fuel r.2 b1 rbytes1
          ⟨e.ret, Event.poll fd timeout p.1 :: Event.read fd BUFSIZE r.1.1 :: e.trace, e.st⟩

/-- The function `mtcp_read`.  Its arguments are the Lua integers `fd`, `nbytes`
and `timeout`, which are stored in the C variables `int fd`, `int nbytes` and
`int timeout`; the loop is run for at most `fuel` iterations. -/
def mtcp_read {σ : Type} (os : OS σ) (s : σ) (fd nbytes timeout : Int) (fuel : Nat) : Run σ :=
  let fd : Int := toInt fd
  let nbytes : Int := toInt nbytes
  let timeout : Int := toInt timeout
  let e := read_loop os fd nbytes timeout fuel s [] 0
  ⟨e.ret, Event.malloc BUFSIZE :: e.trace, e.st⟩

/-! ## Observations on traces -/

/-- Effect of one call on the list of descriptors opened and not yet closed. -/
def openStep (fds : List Int) : Event → List Int
  | Event.socket _ ret => if ret = -1 then fds else ret :: fds
  | Event.close fd => fds.erase fd
  | _ => fds

/-- The descriptors opened by the calls of `tr` and still open after them. -/
def openFds (tr : List Event) : List Int := tr.foldl openStep []

/-- Effect of one call on the number of scratch allocations not yet released. -/
def heldStep (k : Int) : Event → Int
  | Event.getaddrinfo _ _ ret => if ret = 0 then k + 1 else k
  | Event.freeaddrinfo => k - 1
  | Event.malloc _ => k + 1
  | Event.free => k - 1
  | _ => k

/-- Every descriptor opened by the calls of `tr` is closed before the next
`socket()` call of `tr`: at each `socket()` call, none of the descriptors
opened by the earlier calls is still open. -/
def ClosedBeforeNext (tr : List Event) : Prop :=
  ∀ pre rp fd post, tr = pre ++ Event.socket rp fd :: post → openFds pre = []

/-- Number of scratch allocations (candidate lists, chunk buffers) made by the
calls of `tr` and not released by them. -/
def scratchHeld (tr : List Event) : Int := tr.foldl heldStep 0

/-- Whether some `poll` of the trace reported a timeout (returned 0). -/
def pollTimedOut (tr : List Event) : Bool :=
  tr.any fun e => match e with
    | Event.poll _ _ ret => ret == 0
    | _ => false

/-- Outcomes of the calls made by a candidate scan, per candidate position. -/
structure Oracle where
  /-- The candidate list produced by resolution. -/
  cands : List Candidate
  /-- What `socket()` returns for the candidate at position `i`. -/
  sockRet : Nat → Int
  /-- What `bind()`/`connect()` returns for the candidate at position `i`. -/
  attachRet : Nat → Int
  /-- What `listen()` returns. -/
  listenRet : Int
  /-- The value of `errno`. -/
  err : Int

/-- The operating system that answers as an `Oracle` says.  Its state is the
number of `socket()` calls made so far: the scan makes one per candidate, in
order, so the call made in state `k` is the one for candidate `k`, and a
`bind()`/`connect()` made in state `k + 1` is the one for candidate `k`. -/
def oracleOS (o : Oracle) : OS Nat where
  getaddrinfo := fun k _ _ => ((0, o.cands), k)
  socket := fun k _ => (o.sockRet k, k + 1)
  bind := fun k _ _ => (o.attachRet (k - 1), k)
  connect := fun k _ _ => (o.attachRet (k - 1), k)
  listen := fun k _ _ => (o.listenRet, k)
  close := fun k _ => (0, k)
  poll := fun k _ _ => (-1, k)
  read := fun k _ _ => ((-1, []), k)
  write := fun k _ _ _ => (-1, k)
  errno := fun _ => o.err

/-- A peer whose stream holds the bytes of the state and is then shut down in
order: `poll` always reports the descriptor readable, `read` delivers
`min(count, bytes remaining)` bytes, hence 0 at end of stream. -/
def shutdownPeer : OS (List Nat) where
  getaddrinfo := fun s _ _ => ((-1, []), s)
  socket := fun s _ => (-1, s)
  bind := fun s _ _ => (-1, s)
  connect := fun s _ _ => (-1, s)
  listen := fun s _ _ => (-1, s)
  close := fun s _ => (0, s)
  poll := fun s _ _ => (1, s)
  read := fun s _ count => ((min count s.length, s.take count.toNat), s.drop count.toNat)
  write := fun s _ _ count => (count, s)
  errno := fun _ => 0

/-- A peer that has sent the bytes of the state and then pauses: `poll` reports
the descriptor readable while bytes remain and times out once none remain,
`read` delivers `min(count, bytes remaining)` bytes. -/
def pausingPeer : OS (List Nat) where
  getaddrinfo := fun s _ _ => ((-1, []), s)
  socket := fun s _ => (-1, s)
  bind := fun s _ _ => (-1, s)
  connect := fun s _ _ => (-1, s)
  listen := fun s _ _ => (-1, s)
  close := fun s _ => (0, s)
  poll := fun s _ _ => (if s = [] then 0 else 1, s)
  read := fun s _ count => ((min count s.length, s.take count.toNat), s.drop count.toNat)
  write := fun s _ _ count => (count, s)
  errno := fun _ => 0

/-! ## Sample inputs -/

/-- An IPv6 candidate for port 80. -/
def cand6 : Candidate := ⟨10, 1, 6, [10, 0, 0, 80, 0, 0, 0, 0]⟩

/-- An IPv4 candidate for 127.0.0.1, port 80. -/
def cand4 : Candidate := ⟨2, 1, 6, [2, 0, 0, 80, 127, 0, 0, 1]⟩

/-- Two candidates; every `socket()` returns descriptor 5, `bind()`/`connect()`
fails for the first candidate and succeeds for the second, `listen()` fails. -/
def demoOracle : Oracle :=
  ⟨[cand6, cand4], fun _ => 5, fun i => if i = 0 then -1 else 0, -1, 111⟩

/-- The bytes of the string "hello". -/
def hello : List Nat := [104, 101, 108, 108, 111]

/-- The bytes of the string "world". -/
def world : List Nat := [119, 111, 114, 108, 100]

/-- The bytes of the string "hello world". -/
def helloWorld : List Nat := [104, 101, 108, 108, 111, 32, 119, 111, 114, 108, 100]

/-! ## Chunks of a read -/

/-- The chunks delivered by the `read` calls of a trace, in order, found by
replaying the `poll` and `read` calls of the trace on the operating system
from state `s`: a `read` that returns `n` contributes the first `n` bytes it
put into the chunk buffer (no byte when `n ≤ 0`). -/
def chunksOf {σ : Type} (os : OS σ) : List Event → σ → List (List Nat)
  | [], _ => []
  | Event.poll fd timeout _ :: tr, s => chunksOf os tr (os.poll s fd timeout).2
  | Event.read fd count _ :: tr, s =>
    (os.read s fd count).1.2.take (toInt (os.read s fd count).1.1).toNat ::
      chunksOf os tr (os.read s fd count).2
  | _ :: tr, s => chunksOf os tr s

/-- Every `read` of a chunk returns -1 or the number of bytes it delivered,
which is at most `BUFSIZE` (1024). -/
def ReadsAtMostChunk {σ : Type} (os : OS σ) : Prop :=
  ∀ (s : σ) (fd : Int),
    -1 ≤ (os.read s fd BUFSIZE).1.1 ∧ (os.read s fd BUFSIZE).1.1 ≤ 1024 ∧
      (0 ≤ (os.read s fd BUFSIZE).1.1 →
        ((os.read s fd BUFSIZE).1.2.length : Int) = (os.read s fd BUFSIZE).1.1)

/-- The bound the specification gives to the length of a successful read:
`1024 * max(1, ceil(nbytes / 1024))`; for an integer `nbytes` the ceiling of
`nbytes / 1024` is the floor of `(nbytes + 1023) / 1024`. -/
def specMaxLen (nbytes : Int) : Int := 1024 * max 1 ((nbytes + 1023) / 1024)

/-! # Theorems -/

/-! ## Candidate scan: which candidate wins -/

theorem read_loop_timeout {σ : Type} (os : OS σ) (fd nbytes timeout : Int) :
    ∀ (fuel : Nat) (s : σ) (b : List Nat) (rbytes : Int),
      pollTimedOut (read_loop os fd nbytes timeout fuel s b rbytes).trace = true →
      (read_loop os fd nbytes timeout fuel s b rbytes).ret = Ret.failure "poll timeout" []
  | 0, s, b, rbytes => by simp [read_loop, pollTimedOut]
  | fuel + 1, s, b, rbytes => by
    intro h
    have ih := read_loop_timeout os fd nbytes timeout fuel
    unfold read_loop at h ⊢
    simp only at h ⊢
    split_ifs at h ⊢ with h1 h2 h3 h4 h5 h6
    · have : ¬ (os.poll s fd timeout).1 = 0 := by omega
      simp [pollTimedOut, this] at h
    · rfl
    · simp [pollTimedOut, h2] at h
    · simp [pollTimedOut, h2] at h
    · simp [pollTimedOut, h2] at h
    · simp [pollTimedOut, h2] at h
    · apply ih
      simpa [pollTimedOut, h2] using h

/-- C2. For every behaviour of the operating system, if some `poll` made by
`mtcp_read` reports a timeout (returns 0), at the first or at any later
iteration, the call returns the failure pair tagged "poll timeout": none of
the bytes accumulated in earlier iterations are returned. -/
theorem read_timeout_discards {σ : Type} (os : OS σ) (s : σ) (fd nbytes timeout : Int)
    (fuel : Nat)
    (h : pollTimedOut (mtcp_read os s fd nbytes timeout fuel).trace = true) :
    (mtcp_read os s fd nbytes timeout fuel).ret = Ret.failure "poll timeout" [] := by
  apply read_loop_timeout os (toInt fd) (toInt nbytes) (toInt timeout) fuel s [] 0
  simpa [mtcp_read, pollTimedOut] using h

set_option maxRecDepth 1000000 in
theorem read_timeout_discards_witness :
    pollTimedOut (mtcp_read pausingPeer (List.replicate 1024 7) 3 2048 100 5).trace = true ∧
    (mtcp_read pausingPeer (List.replicate 1024 7) 3 2048 100 5).ret
      = Ret.failure "poll timeout" [] ∧
    Event.read 3 1024 1024 ∈ (mtcp_read pausingPeer (List.replicate 1024 7) 3 2048 100 5).trace :=
  ⟨by decide, read_timeout_discards pausingPeer (List.replicate 1024 7) 3 2048 100 5 (by decide),
    by decide⟩

/-! ## Machine integers -/

theorem toInt_of_range (x : Int) (h1 : -2147483648 ≤ x) (h2 : x ≤ 2147483647) : toInt x = x := by
  unfold toInt
  omega

theorem toInt_le (x : Int) : toInt x ≤ 2147483647 := by
  unfold toInt
  omega

theorem toInt_ge (x : Int) : -2147483648 ≤ toInt x := by
  unfold toInt
  omega

/-! ## read: peers -/

theorem shutdownPeer_poll (s : List Nat) (fd timeout : Int) :
    shutdownPeer.poll s fd timeout = (1, s) := rfl

theorem shutdownPeer_read (s : List Nat) (fd : Int) :
    shutdownPeer.read s fd BUFSIZE = ((min 1024 (s.length : Int), s.take 1024), s.drop 1024) :=
  rfl

theorem read_loop_shutdown (fd N timeout : Int) :
    ∀ (fuel : Nat) (rest b : List Nat) (rbytes : Int),
      (N ≤ 2147483647 → rbytes = b.length) →
      ((b.length : Int) + rest.length < N) →
      rest.length / 1024 + 1 ≤ fuel →
      (read_loop shutdownPeer fd N timeout fuel rest b rbytes).ret = Ret.bytes (b ++ rest)
  | 0, rest, b, rbytes => by
    intro _ _ hf
    omega
  | fuel + 1, rest, b, rbytes => by
    intro hinv hlt hf
    have ih := read_loop_shutdown fd N timeout fuel (rest.drop 1024) (b ++ rest.take 1024)
      (toInt (rbytes + 1024))
    unfold read_loop
    simp only [shutdownPeer_poll, shutdownPeer_read]
    rw [if_neg (by decide), if_neg (by decide)]
    rcases Nat.lt_or_ge rest.length 1024 with hshort | hlong
    · -- the last, short chunk (possibly the end of stream)
      have hmin : min (1024 : Int) (rest.length : Int) = rest.length := by omega
      have hn : toInt (rest.length : Int) = rest.length := toInt_of_range _ (by omega) (by omega)
      have htake : List.take rest.length (List.take 1024 rest) = rest := by
        rw [List.take_take]
        simp
        omega
      rw [hmin, hn]
      by_cases h0 : rest.length = 0
      · have : rest = [] := List.length_eq_zero.mp h0
        subst this
        simp
      · rw [if_neg (by omega), if_neg (by omega), if_pos (by unfold BUFSIZE; omega)]
        simp [htake]
    · -- a full chunk: the loop goes on
      have hmin : min (1024 : Int) (rest.length : Int) = 1024 := by omega
      have hn : toInt 1024 = 1024 := by decide
      rw [hmin, hn]
      rw [if_neg (by decide), if_neg (by decide), if_neg (by decide)]
      have hlen : (List.take 1024 rest).length = 1024 := by simp; omega
      have hnot : ¬ toInt (rbytes + 1024) ≥ N := by
        by_cases hN : N ≤ 2147483647
        · have hr := hinv hN
          rw [toInt_of_range _ (by omega) (by omega)]
          omega
        · have := toInt_le (rbytes + 1024)
          omega
      rw [if_neg hnot]
      have htk : List.take (Int.toNat 1024) (List.take 1024 rest) = List.take 1024 rest := by
        simp
      simp only [htk]
      have := ih (by
          intro hN
          have hr := hinv hN
          rw [toInt_of_range _ (by omega) (by omega)]
          simp [hr]
          omega)
        (by simp; omega)
        (by simp; omega)
      simpa using this

/-- C3, for the values of N that fit the C `int nbytes`. For every M and N with
0 < M < N ≤ INT_MAX, `mtcp_read` called with N against a peer that sends M
bytes and then shuts down in order (each `read` delivers `min(1024, bytes
remaining)` bytes, 0 at end of stream, `poll` always reports readable) returns
exactly those M bytes as success, as soon as the loop is given the
`M / 1024 + 1` iterations it needs. -/
theorem read_until_shutdown (data : List Nat) (fd N timeout : Int) (fuel : Nat)
    (_hM : 0 < data.length) (hN : (data.length : Int) < N) (hmax : N ≤ INT_MAX)
    (hfuel : data.length / 1024 + 1 ≤ fuel) :
    (mtcp_read shutdownPeer data fd N timeout fuel).ret = Ret.bytes data := by
  unfold INT_MAX at hmax
  have hNN : toInt N = N := toInt_of_range N (by omega) hmax
  have := read_loop_shutdown (toInt fd) N (toInt timeout) fuel data [] 0 (by simp)
    (by simpa using hN) hfuel
  unfold mtcp_read
  simp only [hNN]
  simpa using this

theorem read_until_shutdown_witness :
    (mtcp_read shutdownPeer [1, 2, 3] 4 10 10000 1).ret = Ret.bytes [1, 2, 3] :=
  read_until_shutdown [1, 2, 3] 4 10 10000 1 (by decide) (by decide) (by decide) (by decide)

set_option maxRecDepth 1000000 in
/-- C3 (the code at the failing input). `mtcp_read` called with N = 4294967297
against a peer that sends M = 1030 bytes and then shuts down in order: the
value stored in `int nbytes` is 1, so the loop stops after the first chunk
(`rbytes >= nbytes`) and the call returns the first 1024 bytes only, not the
1030 bytes the peer sent. -/
theorem read_shutdown_nbytes_narrowed :
    0 < (List.replicate 1030 7).length ∧
    ((List.replicate 1030 7).length : Int) < 4294967297 ∧
    toInt 4294967297 = 1 ∧
    (mtcp_read shutdownPeer (List.replicate 1030 7) 3 4294967297 10000 2).ret
      = Ret.bytes (List.replicate 1024 7) ∧
    (mtcp_read shutdownPeer (List.replicate 1030 7) 3 4294967297 10000 2).ret
      ≠ Ret.bytes (List.replicate 1030 7) := by
  decide

theorem pausingPeer_poll (s : List Nat) (fd timeout : Int) (h : s ≠ []) :
    pausingPeer.poll s fd timeout = (1, s) := by
  simp [pausingPeer, h]

theorem pausingPeer_read (s : List Nat) (fd : Int) :
    pausingPeer.read s fd BUFSIZE = ((min 1024 (s.length : Int), s.take 1024), s.drop 1024) :=
  rfl

theorem read_loop_pausing (fd N timeout : Int) (hmax : N ≤ 2147483647) :
    ∀ (fuel : Nat) (rest b : List Nat) (rbytes : Int),
      rest ≠ [] →
      rbytes = b.length →
      (b.length : Int) + rest.length = N →
      rest.length / 1024 + 1 ≤ fuel →
      (read_loop pausingPeer fd N timeout fuel rest b rbytes).ret = Ret.bytes (b ++ rest) ∧
        pollTimedOut (read_loop pausingPeer fd N timeout fuel rest b rbytes).trace = false
  | 0, rest, b, rbytes => by
    intro _ _ _ hf
    omega
  | fuel + 1, rest, b, rbytes => by
    intro hne hr hsum hf
    have ih := read_loop_pausing fd N timeout hmax fuel (rest.drop 1024)
      (b ++ rest.take 1024) (toInt (rbytes + 1024))
    have hpos : 0 < rest.length := List.length_pos.mpr hne
    unfold read_loop
    simp only [pausingPeer_poll _ _ _ hne, pausingPeer_read]
    rw [if_neg (by decide), if_neg (by decide)]
    rcases Nat.lt_or_ge rest.length 1024 with hshort | hlong
    · -- a short chunk: it holds everything that remains
      have hmin : min (1024 : Int) (rest.length : Int) = rest.length := by omega
      have hn : toInt (rest.length : Int) = rest.length := toInt_of_range _ (by omega) (by omega)
      have htake : List.take rest.length (List.take 1024 rest) = rest := by
        rw [List.take_take]
        simp
        omega
      rw [hmin, hn]
      rw [if_neg (by omega), if_neg (by omega), if_pos (by unfold BUFSIZE; omega)]
      simp [htake, pollTimedOut]
    · -- a full chunk
      have hmin : min (1024 : Int) (rest.length : Int) = 1024 := by omega
      have hn : toInt 1024 = 1024 := by decide
      have hrb : toInt (rbytes + 1024) = rbytes + 1024 :=
        toInt_of_range _ (by omega) (by omega)
      have htk : List.take (Int.toNat 1024) (List.take 1024 rest) = List.take 1024 rest := by
        simp
      rw [hmin, hn]
      rw [if_neg (by decide), if_neg (by decide), if_neg (by decide)]
      simp only [htk]
      by_cases hdone : toInt (rbytes + 1024) ≥ N
      · rw [if_pos hdone]
        have hall : rest.length = 1024 := by omega
        have : List.take 1024 rest = rest := List.take_of_length_le (by omega)
        simp [this, pollTimedOut]
      · rw [if_neg hdone]
        have hmore : rest.drop 1024 ≠ [] := by
          intro h
          have := congrArg List.length h
          simp at this
          omega
        have := ih hmore
          (by rw [hrb, hr]; simp; omega)
          (by simp; omega)
          (by simp; omega)
        simpa [pollTimedOut] using this

/-- C4, for the values of N that fit the C `int nbytes`. For every N with
1 ≤ N ≤ INT_MAX, `mtcp_read` called with N against a peer that has sent exactly
N bytes and then pauses (each `read` delivers `min(1024, bytes remaining)`
bytes, `poll` reports readable while bytes remain and times out once none
remain) returns exactly those N bytes, in order, as success, and no `poll` it
makes times out, as soon as the loop is given the `N / 1024 + 1` iterations it
needs. -/
theorem read_exact_flush (data : List Nat) (fd timeout : Int) (fuel : Nat)
    (hN : 1 ≤ data.length) (hmax : (data.length : Int) ≤ INT_MAX)
    (hfuel : data.length / 1024 + 1 ≤ fuel) :
    (mtcp_read pausingPeer data fd data.length timeout fuel).ret = Ret.bytes data ∧
      pollTimedOut (mtcp_read pausingPeer data fd data.length timeout fuel).trace = false := by
  have hne : data ≠ [] := List.length_pos.mp hN
  unfold INT_MAX at hmax
  have hNN : toInt (data.length : Int) = data.length := toInt_of_range _ (by omega) hmax
  have := read_loop_pausing (toInt fd) data.length (toInt timeout) hmax fuel data [] 0 hne
    (by simp) (by simp) hfuel
  unfold mtcp_read
  simp only [hNN]
  simpa [pollTimedOut] using this

theorem read_exact_flush_witness :
    (mtcp_read pausingPeer [7, 8, 9] 4 3 10000 1).ret = Ret.bytes [7, 8, 9] ∧
      pollTimedOut (mtcp_read pausingPeer [7, 8, 9] 4 3 10000 1).trace = false :=
  read_exact_flush [7, 8, 9] 4 10000 1 (by decide) (by decide) (by decide)

theorem read_loop_first_chunk (fd nbytes timeout : Int) (fuel : Nat) (rest : List Nat)
    (hlen : 1024 ≤ rest.length) (hnb : nbytes ≤ 1024) (hfuel : 0 < fuel) :
    (read_loop pausingPeer fd nbytes timeout fuel rest [] 0).ret
      = Ret.bytes (rest.take 1024) := by
  obtain ⟨k, rfl⟩ := Nat.exists_eq_succ_of_ne_zero (Nat.pos_iff_ne_zero.mp hfuel)
  have hne : rest ≠ [] := by
    intro h
    rw [h] at hlen
    exact absurd hlen (by decide)
  have hmin : min (1024 : Int) (rest.length : Int) = 1024 := by omega
  have hn : toInt 1024 = 1024 := by decide
  have hn0 : toInt (0 + 1024) = 1024 := by decide
  have htk : List.take (Int.toNat 1024) (List.take 1024 rest) = List.take 1024 rest := by
    rw [List.take_take]
    rfl
  unfold read_loop
  simp only [pausingPeer_poll _ _ _ hne, pausingPeer_read]
  rw [if_neg (by decide), if_neg (by decide)]
  rw [hmin, hn]
  rw [if_neg (by decide), if_neg (by decide), if_neg (by decide), hn0, if_pos hnb]
  simp only [htk, List.nil_append]

theorem mtcp_read_first_chunk (data : List Nat) (fd N timeout : Int) (fuel : Nat)
    (hlen : 1024 ≤ data.length) (hnb : toInt N ≤ 1024) (hfuel : 0 < fuel) :
    (mtcp_read pausingPeer data fd N timeout fuel).ret = Ret.bytes (data.take 1024) :=
  read_loop_first_chunk (toInt fd) (toInt N) (toInt timeout) fuel data hlen hnb hfuel

theorem length_long_stream :
    (List.replicate 2147483648 0 : List Nat).length = 2147483648 :=
  List.length_replicate _ _

/-- C4 (the code at the failing input). `mtcp_read` called with N = 2147483648
against a peer that has sent exactly N bytes and then pauses: the value stored
in `int nbytes` is -2147483648, so the loop stops after the first chunk
(`rbytes >= nbytes`) and the call returns the first 1024 bytes only, not the N
bytes the peer sent. -/
theorem read_flush_nbytes_narrowed :
    1 ≤ (List.replicate 2147483648 0 : List Nat).length ∧
    toInt ((List.replicate 2147483648 0 : List Nat).length : Int) = -2147483648 ∧
    (mtcp_read pausingPeer (List.replicate 2147483648 0) 3
        ((List.replicate 2147483648 0 : List Nat).length : Int) 10000 2097153).ret
      = Ret.bytes (List.take 1024 (List.replicate 2147483648 0)) ∧
    (List.take 1024 (List.replicate 2147483648 0 : List Nat)).length = 1024 ∧
    (mtcp_read pausingPeer (List.replicate 2147483648 0) 3
        ((List.replicate 2147483648 0 : List Nat).length : Int) 10000 2097153).ret
      ≠ Ret.bytes (List.replicate 2147483648 0) := by
  have hN : toInt ((List.replicate 2147483648 0 : List Nat).length : Int) = -2147483648 := by
    rw [length_long_stream]
    decide
  have hret : (mtcp_read pausingPeer (List.replicate 2147483648 0) 3
        ((List.replicate 2147483648 0 : List Nat).length : Int) 10000 2097153).ret
      = Ret.bytes (List.take 1024 (List.replicate 2147483648 0)) :=
    mtcp_read_first_chunk (List.replicate 2147483648 0) 3 _ 10000 2097153
      (by rw [length_long_stream]; decide) (by rw [hN]; decide) (by decide)
  have htake : (List.take 1024 (List.replicate 2147483648 0 : List Nat)).length = 1024 := by
    rw [List.length_take, length_long_stream]
    decide
  refine ⟨by rw [length_long_stream]; decide, hN, hret, htake, ?_⟩
  rw [hret]
  intro h
  have hlen := congrArg List.length (Ret.bytes.inj h)
  rw [htake, length_long_stream] at hlen
  exact absurd hlen (by decide)

/-! ## write: the range handed to the operating system -/

theorem write_count_eq (L idx count : Int) (hL0 : 0 ≤ L) (hL : L ≤ 2147483647)
    (h1 : 1 ≤ idx) (h2 : idx ≤ L) (h3 : 0 ≤ count) (h4 : count ≤ 2147483647) :
    toSizeT
      (if toSizeT (toInt (idx + (if count = 0 then toInt L else count) - 1)) > L then
        toInt (toSizeT (L - toSizeT idx + 1))
      else (if count = 0 then toInt L else count))
    = specCount L idx count := by
  unfold specCount toSizeT toInt
  split_ifs <;> omega

theorem mtcp_write_trace_of_length {σ : Type} (os : OS σ) (st : σ) (fd : Int) (s : List Nat)
    (idx sbytes L : Int) (hL : (s.length : Int) = L) (hfd : toInt fd = fd)
    (hi : toInt idx = idx) (hs : toInt sbytes = sbytes) (hidx : ¬ toSizeT idx > L) :
    (mtcp_write os st fd s idx sbytes).trace =
      [Event.write fd (idx - 1)
        (toSizeT
          (if toSizeT (toInt (idx + (if sbytes = 0 then toInt L else sbytes) - 1)) > L then
            toInt (toSizeT (L - toSizeT idx + 1))
          else (if sbytes = 0 then toInt L else sbytes)))
        (os.write st fd (idx - 1)
          (toSizeT
            (if toSizeT (toInt (idx + (if sbytes = 0 then toInt L else sbytes) - 1)) > L then
              toInt (toSizeT (L - toSizeT idx + 1))
            else (if sbytes = 0 then toInt L else sbytes)))).1] := by
  subst hL
  unfold mtcp_write
  simp only [hfd, hi, hs, if_neg hidx]
  split_ifs <;> rfl

theorem length_long_buffer :
    ((List.replicate 4294967296 0 : List Nat).length : Int) = 4294967296 := by
  rw [List.length_replicate]
  rfl

/-- C5, for the lengths and counts that fit the C `int sbytes`. For every buffer
of length L ≤ INT_MAX, every 1-based offset with 1 ≤ offset ≤ L and every count
with 0 ≤ count ≤ INT_MAX, `mtcp_write` issues exactly one OS write, whose byte
range starts at the buffer's byte number `offset` and has length
`L - offset + 1` when count is 0 or `offset + count - 1 > L`, and length
`count` otherwise; the range lies inside the buffer. -/
theorem write_range {σ : Type} (os : OS σ) (st : σ) (fd : Int) (s : List Nat)
    (offset count : Int)
    (hL : (s.length : Int) ≤ INT_MAX) (h1 : 1 ≤ offset) (h2 : offset ≤ s.length)
    (h3 : 0 ≤ count) (h4 : count ≤ INT_MAX) :
    (∃ ret, (mtcp_write os st fd s offset count).trace
        = [Event.write (toInt fd) (offset - 1) (specCount s.length offset count) ret]) ∧
      bytesAt s (offset - 1) (specCount s.length offset count)
        = some ((s.drop (offset - 1).toNat).take (specCount s.length offset count).toNat) := by
  unfold INT_MAX at hL h4
  have hcount := write_count_eq s.length offset count (by omega) hL h1 h2 h3 h4
  have ho : toInt offset = offset := toInt_of_range _ (by omega) (by omega)
  have hc : toInt count = count := toInt_of_range _ (by omega) h4
  have hidx : ¬ toSizeT offset > (s.length : Int) := by
    unfold toSizeT
    omega
  constructor
  · unfold mtcp_write
    simp only [ho, hc, if_neg hidx, hcount]
    split_ifs
    · exact ⟨_, rfl⟩
    · exact ⟨_, rfl⟩
  · have hin : 0 ≤ offset - 1 ∧ 0 ≤ specCount s.length offset count ∧
        offset - 1 + specCount s.length offset count ≤ s.length := by
      unfold specCount
      split_ifs <;> omega
    unfold bytesAt
    rw [if_pos hin]

theorem write_range_witness :
    ((∃ ret, (mtcp_write shutdownPeer [] 3 helloWorld 7 0).trace = [Event.write 3 6 5 ret]) ∧
      bytesAt helloWorld 6 5 = some world) ∧
    ((∃ ret, (mtcp_write shutdownPeer [] 3 hello 1 100).trace = [Event.write 3 0 5 ret]) ∧
      bytesAt hello 0 5 = some hello) := by
  have a := write_range shutdownPeer [] 3 helloWorld 7 0
    (by decide) (by decide) (by decide) (by decide) (by decide)
  have b := write_range shutdownPeer [] 3 hello 1 100
    (by decide) (by decide) (by decide) (by decide) (by decide)
  have ea : specCount (helloWorld.length : Int) 7 0 = 5 := by decide
  have eb : specCount (hello.length : Int) 1 100 = 5 := by decide
  have e3 : toInt 3 = 3 := by decide
  rw [ea, e3] at a
  rw [eb, e3] at b
  exact ⟨⟨a.1, by decide⟩, ⟨b.1, by decide⟩⟩

/-- C5 (the code at the failing inputs). On the 5-byte buffer "hello" with
offset 1 and count 4294967297, the value stored in `int sbytes` is 1: no clamp
is applied and the single OS write is handed 1 byte, where the claim gives the
5 bytes of the buffer.  On a buffer of 4294967296 bytes with offset 1 and
count 0, `sbytes = slen` stores 0 in `int sbytes`: the single OS write is
handed 0 bytes, where the claim gives the 4294967296 bytes of the buffer. -/
theorem write_range_narrowed :
    ((1 : Int) ≤ 1 ∧ (1 : Int) ≤ (hello.length : Int) ∧ (0 : Int) ≤ 4294967297 ∧
      specCount (hello.length : Int) 1 4294967297 = 5 ∧
      (mtcp_write shutdownPeer [] 3 hello 1 4294967297).trace = [Event.write 3 0 1 1] ∧
      bytesAt hello 0 1 = some [104]) ∧
    ((1 : Int) ≤ ((List.replicate 4294967296 0).length : Int) ∧
      specCount ((List.replicate 4294967296 0).length : Int) 1 0 = 4294967296 ∧
      (mtcp_write shutdownPeer [] 3 (List.replicate 4294967296 0) 1 0).trace
        = [Event.write 3 0 0 0]) := by
  have htrace : (mtcp_write shutdownPeer [] 3 (List.replicate 4294967296 0) 1 0).trace
      = [Event.write 3 0 0 0] := by
    rw [mtcp_write_trace_of_length shutdownPeer [] 3 _ 1 0 4294967296 length_long_buffer
      (by decide) (by decide) (by decide) (by decide)]
    decide
  have hspec : specCount ((List.replicate 4294967296 0).length : Int) 1 0 = 4294967296 := by
    rw [length_long_buffer]
    decide
  exact ⟨by decide, by rw [length_long_buffer]; decide, hspec, htrace⟩

/-- C6, for the offsets that fit the C `int idx`. For every buffer and every
start offset greater than the buffer's length and at most INT_MAX, `mtcp_write`
aborts with the fatal argument error: it returns no failure pair and issues no
OS write.  In particular this holds for an empty buffer with the default
offset 1. -/
theorem write_offset_past_end {σ : Type} (os : OS σ) (st : σ) (fd : Int) (s : List Nat)
    (idx sbytes : Int) (h : (s.length : Int) < idx) (hmax : idx ≤ INT_MAX) :
    (mtcp_write os st fd s idx sbytes).ret = Ret.fatal "write: idx (%d) too large" ∧
      (mtcp_write os st fd s idx sbytes).trace = [] := by
  unfold INT_MAX at hmax
  have hi : toInt idx = idx := toInt_of_range _ (by omega) hmax
  have hidx : toSizeT (toInt idx) > (s.length : Int) := by
    rw [hi]
    unfold toSizeT
    omega
  unfold mtcp_write
  simp only
  rw [if_pos hidx]
  exact ⟨rfl, rfl⟩

theorem write_offset_past_end_witness :
    (mtcp_write shutdownPeer [] 3 [] 1 0).ret = Ret.fatal "write: idx (%d) too large" ∧
      (mtcp_write shutdownPeer [] 3 [] 1 0).trace = [] :=
  write_offset_past_end shutdownPeer [] 3 [] 1 0 (by decide) (by decide)

/-- C6 (the code at the failing input). On the 5-byte buffer "hello" with start
offset 4294967297, which is greater than the buffer's length, the value stored
in `int idx` is 1: the guard `idx > slen` does not fire, `mtcp_write` does not
abort and issues an OS write of the 5 bytes of the buffer. -/
theorem write_offset_narrowed :
    (hello.length : Int) < 4294967297 ∧
    toInt 4294967297 = 1 ∧
    (mtcp_write shutdownPeer [] 3 hello 4294967297 0).ret = Ret.count 5 ∧
    (mtcp_write shutdownPeer [] 3 hello 4294967297 0).trace = [Event.write 3 0 5 5] ∧
    bytesAt hello 0 5 = some hello := by
  decide

/-- C10 (the code at the failing inputs). With offset 0 on the 5-byte buffer
"hello", `mtcp_write` does not abort: it hands the OS the 5 bytes that start
one byte before the buffer, a range that is not inside the buffer.  With
offset 3 and count -1 it does not abort either and hands the OS a range of
2^64 - 1 bytes. -/
theorem write_offset_zero_leaves_buffer :
    (mtcp_write shutdownPeer [] 3 hello 0 0).ret = Ret.count 5 ∧
    (mtcp_write shutdownPeer [] 3 hello 0 0).trace = [Event.write 3 (-1) 5 5] ∧
    bytesAt hello (-1) 5 = none ∧
    (mtcp_write shutdownPeer [] 3 hello 3 (-1)).trace
      = [Event.write 3 2 18446744073709551615 18446744073709551615] ∧
    bytesAt hello 2 18446744073709551615 = none := by
  decide

/-! ## Descriptors opened and closed by the candidate scans -/

theorem closedBeforeNext_nil : ClosedBeforeNext [] := by
  intro pre rp fd post h
  cases pre <;> simp at h

theorem openFds_skip (rp : Candidate) (tr : List Event) :
    openFds (Event.socket rp (-1) :: tr) = openFds tr := by
  simp [openFds, openStep]

theorem openFds_reject (rp : Candidate) (fd : Int) (a : Event)
    (ha : ∀ fds, openStep fds a = fds) (tr : List Event) :
    openFds (Event.socket rp fd :: a :: Event.close fd :: tr) = openFds tr := by
  unfold openFds
  simp only [List.foldl_cons]
  rw [ha]
  by_cases hfd : fd = -1
  · simp [openStep, hfd]
  · simp [openStep, hfd]

theorem openFds_win (rp : Candidate) (fd : Int) (a : Event)
    (ha : ∀ fds, openStep fds a = fds) (hfd : fd ≠ -1) :
    openFds [Event.socket rp fd, a] = [fd] := by
  unfold openFds
  simp only [List.foldl_cons, List.foldl_nil]
  rw [ha]
  simp [openStep, hfd]

theorem closedBeforeNext_skip (rp : Candidate) (tr : List Event) (h : ClosedBeforeNext tr) :
    ClosedBeforeNext (Event.socket rp (-1) :: tr) := by
  intro pre rp2 fd2 post heq
  cases pre with
  | nil => rfl
  | cons e pre1 =>
    simp only [List.cons_append, List.cons.injEq] at heq
    obtain ⟨he, htr⟩ := heq
    subst he
    rw [openFds_skip]
    exact h pre1 rp2 fd2 post htr

theorem closedBeforeNext_reject (rp : Candidate) (fd : Int) (a : Event)
    (ha : ∀ fds, openStep fds a = fds) (hns : ∀ rp2 fd2, a ≠ Event.socket rp2 fd2)
    (tr : List Event) (h : ClosedBeforeNext tr) :
    ClosedBeforeNext (Event.socket rp fd :: a :: Event.close fd :: tr) := by
  intro pre rp2 fd2 post heq
  cases pre with
  | nil => rfl
  | cons e1 pre1 =>
    simp only [List.cons_append, List.cons.injEq] at heq
    obtain ⟨he1, heq⟩ := heq
    cases pre1 with
    | nil =>
      simp only [List.nil_append, List.cons.injEq] at heq
      exact absurd heq.1 (hns rp2 fd2)
    | cons e2 pre2 =>
      simp only [List.cons_append, List.cons.injEq] at heq
      obtain ⟨he2, heq⟩ := heq
      cases pre2 with
      | nil =>
        simp only [List.nil_append, List.cons.injEq] at heq
        exact absurd heq.1 (by simp)
      | cons e3 pre3 =>
        simp only [List.cons_append, List.cons.injEq] at heq
        obtain ⟨he3, heq⟩ := heq
        subst he1 he2 he3
        rw [openFds_reject rp fd a ha]
        exact h pre3 rp2 fd2 post heq

theorem closedBeforeNext_win (rp : Candidate) (fd : Int) (a : Event)
    (hns : ∀ rp2 fd2, a ≠ Event.socket rp2 fd2) :
    ClosedBeforeNext [Event.socket rp fd, a] := by
  intro pre rp2 fd2 post heq
  cases pre with
  | nil => rfl
  | cons e1 pre1 =>
    simp only [List.cons_append, List.cons.injEq] at heq
    obtain ⟨-, heq⟩ := heq
    cases pre1 with
    | nil =>
      simp only [List.nil_append, List.cons.injEq] at heq
      exact absurd heq.1 (hns rp2 fd2)
    | cons e2 pre2 =>
      simp only [List.cons_append, List.cons.injEq] at heq
      obtain ⟨-, heq⟩ := heq
      cases pre2 <;> simp at heq

theorem bind_scan_open {σ : Type} (os : OS σ) :
    ∀ (cands : List Candidate) (s : σ) (n : Int),
      ClosedBeforeNext (bind_scan os cands s n).trace ∧
      openFds (bind_scan os cands s n).trace =
        (match (bind_scan os cands s n).winner with
          | some (_, fd) => [fd]
          | none => [])
  | [], s, n => ⟨closedBeforeNext_nil, rfl⟩
  | rp :: rest, s, n => by
    unfold bind_scan
    simp only
    split_ifs with h1 h2
    · have ih := bind_scan_open os rest (os.socket s rp).2 n
      rw [h1]
      exact ⟨closedBeforeNext_skip _ _ ih.1, by rw [openFds_skip]; exact ih.2⟩
    · exact ⟨closedBeforeNext_win rp _ (Event.bind _ rp _) (by simp),
        openFds_win rp _ (Event.bind _ rp _) (fun _ => rfl) h1⟩
    · have ih := bind_scan_open os rest (os.close (os.bind (os.socket s rp).2
        (os.socket s rp).1 rp).2 (os.socket s rp).1).2 (os.bind (os.socket s rp).2
        (os.socket s rp).1 rp).1
      exact ⟨closedBeforeNext_reject rp _ (Event.bind _ rp _) (fun _ => rfl) (by simp) _ ih.1,
        by rw [openFds_reject rp _ (Event.bind _ rp _) (fun _ => rfl)]; exact ih.2⟩

theorem connect_scan_open {σ : Type} (os : OS σ) :
    ∀ (cands : List Candidate) (s : σ) (n : Int),
      ClosedBeforeNext (connect_scan os cands s n).trace ∧
      openFds (connect_scan os cands s n).trace =
        (match (connect_scan os cands s n).winner with
          | some (_, fd) => [fd]
          | none => [])
  | [], s, n => ⟨closedBeforeNext_nil, rfl⟩
  | rp :: rest, s, n => by
    unfold connect_scan
    simp only
    split_ifs with h1 h2
    · have ih := connect_scan_open os rest (os.socket s rp).2 n
      rw [h1]
      exact ⟨closedBeforeNext_skip _ _ ih.1, by rw [openFds_skip]; exact ih.2⟩
    · exact ⟨closedBeforeNext_win rp _ (Event.connect _ rp _) (by simp),
        openFds_win rp _ (Event.connect _ rp _) (fun _ => rfl) h1⟩
    · have ih := connect_scan_open os rest (os.close (os.connect (os.socket s rp).2
        (os.socket s rp).1 rp).2 (os.socket s rp).1).2 (os.connect (os.socket s rp).2
        (os.socket s rp).1 rp).1
      exact ⟨closedBeforeNext_reject rp _ (Event.connect _ rp _) (fun _ => rfl) (by simp) _ ih.1,
        by rw [openFds_reject rp _ (Event.connect _ rp _) (fun _ => rfl)]; exact ih.2⟩

/-- C7. For every candidate list and every behaviour of the operating system,
in the bind scan and in the connect scan every descriptor opened for a
candidate is closed before the next `socket()` call, and when the scan ends the
only descriptor opened by the scan and still open is the winning candidate's
(none when the scan fails). -/
theorem scan_closes_rejected {σ : Type} (os : OS σ) (cands : List Candidate) (s : σ) (n : Int) :
    (ClosedBeforeNext (bind_scan os cands s n).trace ∧
      openFds (bind_scan os cands s n).trace =
        (match (bind_scan os cands s n).winner with
          | some (_, fd) => [fd]
          | none => [])) ∧
    (ClosedBeforeNext (connect_scan os cands s n).trace ∧
      openFds (connect_scan os cands s n).trace =
        (match (connect_scan os cands s n).winner with
          | some (_, fd) => [fd]
          | none => [])) :=
  ⟨bind_scan_open os cands s n, connect_scan_open os cands s n⟩

/-! ## bind: the listen call -/

theorem bind_scan_winner_of_bound {σ : Type} (os : OS σ) (rp0 : Candidate) (sfd : Int) :
    ∀ (cands : List Candidate) (s : σ) (n : Int),
      Event.bind sfd rp0 0 ∈ (bind_scan os cands s n).trace →
      (bind_scan os cands s n).winner = some (rp0, sfd)
  | [], s, n => by simp [bind_scan]
  | rp :: rest, s, n => by
    unfold bind_scan
    simp only
    split_ifs with h1 h2
    · intro h
      simp only [List.mem_cons] at h
      rcases h with h | h
      · exact Event.noConfusion h
      · exact bind_scan_winner_of_bound os rp0 sfd rest _ _ h
    · intro h
      simp only [List.mem_cons, List.mem_singleton, List.not_mem_nil, or_false] at h
      rcases h with h | h
      · exact Event.noConfusion h
      · injection h with e1 e2 e3
        rw [e1, e2]
    · intro h
      simp only [List.mem_cons] at h
      rcases h with h | h | h | h
      · exact Event.noConfusion h
      · injection h with e1 e2 e3
        exact absurd e3.symm h2
      · exact Event.noConfusion h
      · exact bind_scan_winner_of_bound os rp0 sfd rest _ _ h

theorem mtcp_bind_trace {σ : Type} (os : OS σ) (s : σ) (host service : String) :
    (mtcp_bind os s host service).trace =
      if (os.getaddrinfo s host service).1.1 ≠ 0 then
        [Event.getaddrinfo host service (os.getaddrinfo s host service).1.1]
      else
        match (bind_scan os (os.getaddrinfo s host service).1.2
            (os.getaddrinfo s host service).2 (os.getaddrinfo s host service).1.1).winner with
        | none =>
          Event.getaddrinfo host service (os.getaddrinfo s host service).1.1 ::
            (bind_scan os (os.getaddrinfo s host service).1.2
              (os.getaddrinfo s host service).2 (os.getaddrinfo s host service).1.1).trace
        | some (_, sfd) =>
          Event.getaddrinfo host service (os.getaddrinfo s host service).1.1 ::
            ((bind_scan os (os.getaddrinfo s host service).1.2
              (os.getaddrinfo s host service).2 (os.getaddrinfo s host service).1.1).trace ++
            [Event.listen sfd BACKLOG (os.listen (bind_scan os (os.getaddrinfo s host service).1.2
              (os.getaddrinfo s host service).2 (os.getaddrinfo s host service).1.1).st
              sfd BACKLOG).1]) := by
  unfold mtcp_bind
  simp only
  split_ifs with hg
  · rfl
  · split
    · rfl
    · split_ifs <;> rfl

theorem heldFold_shift (tr : List Event) :
    ∀ k : Int, tr.foldl heldStep k = k + tr.foldl heldStep 0 := by
  induction tr with
  | nil => intro k; simp
  | cons e tr ih =>
    intro k
    simp only [List.foldl_cons]
    rw [ih (heldStep k e), ih (heldStep 0 e)]
    cases e <;> simp only [heldStep] <;> (try split_ifs) <;> omega

theorem scratchHeld_cons (e : Event) (tr : List Event) :
    scratchHeld (e :: tr) = heldStep 0 e + scratchHeld tr := by
  unfold scratchHeld
  rw [List.foldl_cons, heldFold_shift]

theorem scratchHeld_append (a b : List Event) :
    scratchHeld (a ++ b) = scratchHeld a + scratchHeld b := by
  unfold scratchHeld
  rw [List.foldl_append, heldFold_shift]

theorem bind_scan_held {σ : Type} (os : OS σ) :
    ∀ (cands : List Candidate) (s : σ) (n : Int),
      scratchHeld (bind_scan os cands s n).trace = 0
  | [], s, n => rfl
  | rp :: rest, s, n => by
    unfold bind_scan
    simp only
    split_ifs with h1 h2
    · simpa [scratchHeld_cons, heldStep] using bind_scan_held os rest _ _
    · rfl
    · simpa [scratchHeld_cons, heldStep] using bind_scan_held os rest _ _

theorem connect_scan_held {σ : Type} (os : OS σ) :
    ∀ (cands : List Candidate) (s : σ) (n : Int),
      scratchHeld (connect_scan os cands s n).trace = 0
  | [], s, n => rfl
  | rp :: rest, s, n => by
    unfold connect_scan
    simp only
    split_ifs with h1 h2
    · simpa [scratchHeld_cons, heldStep] using connect_scan_held os rest _ _
    · rfl
    · simpa [scratchHeld_cons, heldStep] using connect_scan_held os rest _ _

theorem mtcp_connect_trace {σ : Type} (os : OS σ) (s : σ) (host service : String)
    (hg : (os.getaddrinfo s host service).1.1 = 0) :
    (mtcp_connect os s host service).trace =
      Event.getaddrinfo host service 0 ::
        (connect_scan os (os.getaddrinfo s host service).1.2
          (os.getaddrinfo s host service).2 0).trace := by
  unfold mtcp_connect
  simp only [hg]
  rw [if_neg (by simp)]
  split <;> rfl

theorem read_loop_held {σ : Type} (os : OS σ) (fd nbytes timeout : Int) :
    ∀ (fuel : Nat) (s : σ) (b : List Nat) (rbytes : Int),
      (read_loop os fd nbytes timeout fuel s b rbytes).ret ≠ Ret.running →
      scratchHeld (read_loop os fd nbytes timeout fuel s b rbytes).trace = -1
  | 0, s, b, rbytes => by simp [read_loop]
  | fuel + 1, s, b, rbytes => by
    have ih := read_loop_held os fd nbytes timeout fuel
    unfold read_loop
    simp only
    split_ifs
    · intro _; rfl
    · intro _; rfl
    · intro _; rfl
    · intro _; rfl
    · intro _; rfl
    · intro _; rfl
    · intro h
      rw [scratchHeld_cons, scratchHeld_cons, ih _ _ _ h]
      rfl

/-- C9 (amended). On every exit path of `mtcp_read`, success or failure, the
chunk buffer allocated by the call has been released before it returns.
`mtcp_bind` and `mtcp_connect` make no call that releases the candidate list:
after a successful resolution the list is still allocated when they return. -/
theorem scratch_release {σ : Type} (os : OS σ) (s : σ) (host service : String)
    (fd nbytes timeout : Int) (fuel : Nat) :
    ((mtcp_read os s fd nbytes timeout fuel).ret ≠ Ret.running →
      scratchHeld (mtcp_read os s fd nbytes timeout fuel).trace = 0) ∧
    ((os.getaddrinfo s host service).1.1 = 0 →
      scratchHeld (mtcp_bind os s host service).trace = 1 ∧
      scratchHeld (mtcp_connect os s host service).trace = 1) := by
  constructor
  · intro h
    have := read_loop_held os (toInt fd) (toInt nbytes) (toInt timeout) fuel s [] 0 h
    unfold mtcp_read
    simp only
    rw [scratchHeld_cons, this]
    rfl
  · intro hg
    constructor
    · rw [mtcp_bind_trace, if_neg (by simp [hg])]
      split
      · rw [scratchHeld_cons, bind_scan_held]
        simp [heldStep, hg]
      · rw [scratchHeld_cons, scratchHeld_append, bind_scan_held]
        simp [heldStep, hg, scratchHeld]
    · rw [mtcp_connect_trace os s host service hg, scratchHeld_cons, connect_scan_held]
      simp [heldStep]

theorem scratch_release_witness :
    scratchHeld (mtcp_read shutdownPeer [1, 2, 3] 4 10 10000 1).trace = 0 ∧
    scratchHeld (mtcp_bind shutdownPeer [1, 2, 3] "localhost" "80").trace = 0 ∧
    scratchHeld (mtcp_bind (oracleOS demoOracle) 0 "localhost" "80").trace = 1 ∧
    scratchHeld (mtcp_connect (oracleOS demoOracle) 0 "localhost" "80").trace = 1 :=
  ⟨(scratch_release shutdownPeer [1, 2, 3] "localhost" "80" 4 10 10000 1).1 (by decide),
    by decide,
    ((scratch_release (oracleOS demoOracle) 0 "localhost" "80" 4 10 10000 1).2 rfl).1,
    ((scratch_release (oracleOS demoOracle) 0 "localhost" "80" 4 10 10000 1).2 rfl).2⟩

/-- C9 (as stated) fails for bind and connect: in a run of `mtcp_bind` that
ends with the "listen error" failure pair and in a run of `mtcp_connect` that
succeeds, the candidate list obtained from resolution is still allocated when
the call returns. -/
theorem candidate_list_not_released :
    (mtcp_bind (oracleOS demoOracle) 0 "localhost" "80").ret
      = Ret.failure "listen error" [-1, 111] ∧
    scratchHeld (mtcp_bind (oracleOS demoOracle) 0 "localhost" "80").trace ≠ 0 ∧
    Event.freeaddrinfo ∉ (mtcp_bind (oracleOS demoOracle) 0 "localhost" "80").trace ∧
    (mtcp_connect (oracleOS demoOracle) 0 "localhost" "80").ret
      = Ret.sock 5 [2, 0, 0, 80, 127, 0, 0, 1] ∧
    scratchHeld (mtcp_connect (oracleOS demoOracle) 0 "localhost" "80").trace ≠ 0 ∧
    Event.freeaddrinfo ∉ (mtcp_connect (oracleOS demoOracle) 0 "localhost" "80").trace := by
  decide

/-! ## read: the chunks of a successful read -/

theorem read_loop_concat {σ : Type} (os : OS σ) (fd nbytes timeout : Int) :
    ∀ (fuel : Nat) (s : σ) (b : List Nat) (rbytes : Int) (data : List Nat),
      (read_loop os fd nbytes timeout fuel s b rbytes).ret = Ret.bytes data →
      data = b ++ (chunksOf os (read_loop os fd nbytes timeout fuel s b rbytes).trace s).flatten
  | 0, s, b, rbytes, data => by simp [read_loop]
  | fuel + 1, s, b, rbytes, data => by
    have ih := read_loop_concat os fd nbytes timeout fuel
    unfold read_loop
    simp only
    split_ifs with h1 h2 h3 h4 h5 h6
    · intro h; exact h.elim
    · intro h; exact h.elim
    · intro h
      injection h with h
      simp [chunksOf, h3, ← h]
    · intro h; exact h.elim
    · intro h
      injection h with h
      simp [chunksOf, ← h]
    · intro h
      injection h with h
      simp [chunksOf, ← h]
    · intro h
      have := ih _ _ _ _ h
      rw [this]
      simp [chunksOf]

theorem mem_dropLast_cons {α : Type} (a : α) (l : List α) (x : α)
    (h : x ∈ (a :: l).dropLast) : x = a ∨ x ∈ l.dropLast := by
  cases l with
  | nil => simp [List.dropLast] at h
  | cons b l2 =>
    simp only [List.dropLast, List.mem_cons] at h
    exact h

theorem read_loop_full_chunks {σ : Type} (os : OS σ) (fd nbytes timeout : Int)
    (hos : ReadsAtMostChunk os) :
    ∀ (fuel : Nat) (s : σ) (b : List Nat) (rbytes : Int),
      ∀ c ∈ (chunksOf os (read_loop os fd nbytes timeout fuel s b rbytes).trace s).dropLast,
        c.length = 1024
  | 0, s, b, rbytes => by simp [read_loop, chunksOf]
  | fuel + 1, s, b, rbytes => by
    have ih := read_loop_full_chunks os fd nbytes timeout hos fuel
    unfold read_loop
    simp only
    split_ifs with h1 h2 h3 h4 h5 h6
    · simp [chunksOf]
    · simp [chunksOf]
    · simp [chunksOf]
    · simp [chunksOf]
    · simp [chunksOf]
    · simp [chunksOf]
    · obtain ⟨hlo, hhi, hlen⟩ := hos (os.poll s fd timeout).2 fd
      have hn : toInt (os.read (os.poll s fd timeout).2 fd BUFSIZE).1.1
          = (os.read (os.poll s fd timeout).2 fd BUFSIZE).1.1 :=
        toInt_of_range _ (by omega) (by omega)
      rw [hn] at h5
      have h1024 : (os.read (os.poll s fd timeout).2 fd BUFSIZE).1.1 = 1024 := by
        have h5b : ¬ (os.read (os.poll s fd timeout).2 fd BUFSIZE).1.1 < 1024 := h5
        omega
      have hl := hlen (by omega)
      intro c hc
      simp only [chunksOf] at hc
      rcases mem_dropLast_cons _ _ _ hc with hc | hc
      · rw [hc, hn, h1024, List.length_take]
        rw [h1024] at hl
        have : (Int.toNat 1024) = 1024 := rfl
        omega
      · rw [hn] at hc
        exact ih _ _ _ c hc

theorem read_loop_length_bound {σ : Type} (os : OS σ) (fd nbytes timeout : Int)
    (hos : ReadsAtMostChunk os) (hnb : nbytes ≤ 2147482624) :
    ∀ (fuel : Nat) (s : σ) (b : List Nat) (rbytes : Int) (data : List Nat),
      0 ≤ rbytes → rbytes % 1024 = 0 → (b.length : Int) ≤ rbytes →
      (rbytes < nbytes ∨ rbytes = 0) →
      (read_loop os fd nbytes timeout fuel s b rbytes).ret = Ret.bytes data →
      (data.length : Int) ≤ specMaxLen nbytes
  | 0, s, b, rbytes, data => by simp [read_loop]
  | fuel + 1, s, b, rbytes, data => by
    intro h0 hmod hb hlt
    have ih := read_loop_length_bound os fd nbytes timeout hos hnb fuel
    obtain ⟨hlo, hhi, -⟩ := hos (os.poll s fd timeout).2 fd
    have hn : toInt (os.read (os.poll s fd timeout).2 fd BUFSIZE).1.1
        = (os.read (os.poll s fd timeout).2 fd BUFSIZE).1.1 :=
      toInt_of_range _ (by omega) (by omega)
    unfold read_loop
    simp only [hn]
    split_ifs with h1 h2 h3 h4 h5 h6
    · intro h; exact h.elim
    · intro h; exact h.elim
    · intro h
      injection h with h
      subst h
      unfold specMaxLen
      omega
    · intro h; exact h.elim
    · intro h
      injection h with h
      subst h
      rw [List.length_append, List.length_take]
      unfold specMaxLen
      push_cast
      omega
    · intro h
      injection h with h
      subst h
      rw [List.length_append, List.length_take]
      unfold specMaxLen
      push_cast
      omega
    · have h5b : ¬ (os.read (os.poll s fd timeout).2 fd BUFSIZE).1.1 < 1024 := h5
      have h1024 : (os.read (os.poll s fd timeout).2 fd BUFSIZE).1.1 = 1024 := by omega
      have hr : toInt (rbytes + (os.read (os.poll s fd timeout).2 fd BUFSIZE).1.1)
          = rbytes + 1024 := by
        rw [h1024]
        exact toInt_of_range _ (by omega) (by omega)
      rw [hr] at h6 ⊢
      intro h
      refine ih _ _ _ data (by omega) (by omega) ?_ (by omega) h
      rw [List.length_append, List.length_take]
      push_cast
      omega

theorem shutdownPeer_readsAtMostChunk : ReadsAtMostChunk shutdownPeer := by
  intro s fd
  rw [shutdownPeer_read]
  show -1 ≤ min (1024 : Int) s.length ∧ min (1024 : Int) s.length ≤ 1024 ∧
    (0 ≤ min (1024 : Int) s.length → ((s.take 1024).length : Int) = min (1024 : Int) s.length)
  refine ⟨by omega, by omega, fun _ => ?_⟩
  rw [List.length_take]
  omega

theorem chunksOf_malloc {σ : Type} (os : OS σ) (size : Int) (tr : List Event) (s : σ) :
    chunksOf os (Event.malloc size :: tr) s = chunksOf os tr s := rfl

/-- C11, as far as the code keeps it. For every value of `nbytes` and every
behaviour of the operating system in which each `read` returns at most 1024
bytes, a successful `mtcp_read` returns the concatenation, in order, of the
chunks it read, and every chunk but the last is exactly 1024 bytes long; when
`nbytes` fits the C `int` and `nbytes ≤ 2147482624` (INT_MAX - 1023), so that
the counter `rbytes` cannot overflow, the returned length is at most
`1024 * max(1, ceil(nbytes / 1024))`. -/
theorem read_chunks_bound {σ : Type} (os : OS σ) (s : σ) (fd nbytes timeout : Int)
    (fuel : Nat) (data : List Nat) (hos : ReadsAtMostChunk os)
    (hret : (mtcp_read os s fd nbytes timeout fuel).ret = Ret.bytes data) :
    data = (chunksOf os (mtcp_read os s fd nbytes timeout fuel).trace s).flatten ∧
    (∀ c ∈ (chunksOf os (mtcp_read os s fd nbytes timeout fuel).trace s).dropLast,
      c.length = 1024) ∧
    (INT_MIN ≤ nbytes → nbytes ≤ 2147482624 →
      (data.length : Int) ≤ specMaxLen nbytes) := by
  have hret2 : (read_loop os (toInt fd) (toInt nbytes) (toInt timeout) fuel s [] 0).ret
      = Ret.bytes data := hret
  have htr : (mtcp_read os s fd nbytes timeout fuel).trace
      = Event.malloc BUFSIZE ::
        (read_loop os (toInt fd) (toInt nbytes) (toInt timeout) fuel s [] 0).trace := rfl
  rw [htr, chunksOf_malloc]
  refine ⟨?_, ?_, ?_⟩
  · simpa using
      read_loop_concat os (toInt fd) (toInt nbytes) (toInt timeout) fuel s [] 0 data hret2
  · exact read_loop_full_chunks os (toInt fd) (toInt nbytes) (toInt timeout) hos fuel s [] 0
  · intro hlo hnb
    unfold INT_MIN at hlo
    have hNN : toInt nbytes = nbytes := toInt_of_range _ hlo (by omega)
    rw [hNN] at hret2
    exact read_loop_length_bound os (toInt fd) nbytes (toInt timeout) hos hnb fuel s [] 0 data
      (le_refl 0) (by decide) (by simp) (Or.inr rfl) hret2

set_option maxRecDepth 1000000 in
theorem read_chunks_bound_witness :
    (mtcp_read shutdownPeer (List.replicate 1030 7) 3 2000 10000 2).ret
      = Ret.bytes (List.replicate 1030 7) ∧
    chunksOf shutdownPeer (mtcp_read shutdownPeer (List.replicate 1030 7) 3 2000 10000 2).trace
        (List.replicate 1030 7)
      = [List.replicate 1024 7, List.replicate 6 7] ∧
    specMaxLen 2000 = 2048 ∧
    (List.replicate 1030 7
        = (chunksOf shutdownPeer
            (mtcp_read shutdownPeer (List.replicate 1030 7) 3 2000 10000 2).trace
            (List.replicate 1030 7)).flatten ∧
      (∀ c ∈ (chunksOf shutdownPeer
            (mtcp_read shutdownPeer (List.replicate 1030 7) 3 2000 10000 2).trace
            (List.replicate 1030 7)).dropLast, c.length = 1024) ∧
      (INT_MIN ≤ (2000 : Int) → (2000 : Int) ≤ 2147482624 →
        ((List.replicate 1030 7).length : Int) ≤ specMaxLen 2000)) :=
  ⟨by decide, by decide, by decide,
    read_chunks_bound shutdownPeer (List.replicate 1030 7) 3 2000 10000 2
      (List.replicate 1030 7) shutdownPeer_readsAtMostChunk (by decide)⟩

theorem read_loop_shutdown_wrap (fd timeout : Int) :
    ∀ (fuel : Nat) (rest b : List Nat) (rbytes : Int),
      rbytes % 1024 = 0 →
      rest.length / 1024 + 1 ≤ fuel →
      (read_loop shutdownPeer fd 2147483647 timeout fuel rest b rbytes).ret
        = Ret.bytes (b ++ rest)
  | 0, rest, b, rbytes => by
    intro _ hf
    omega
  | fuel + 1, rest, b, rbytes => by
    intro hmod hf
    have ih := read_loop_shutdown_wrap fd timeout fuel (rest.drop 1024) (b ++ rest.take 1024)
      (toInt (rbytes + 1024))
    unfold read_loop
    simp only [shutdownPeer_poll, shutdownPeer_read]
    rw [if_neg (by decide), if_neg (by decide)]
    rcases Nat.lt_or_ge rest.length 1024 with hshort | hlong
    · -- the last, short chunk (possibly the end of stream)
      have hmin : min (1024 : Int) (rest.length : Int) = rest.length := by omega
      have hn : toInt (rest.length : Int) = rest.length := toInt_of_range _ (by omega) (by omega)
      have htake : List.take rest.length (List.take 1024 rest) = rest := by
        rw [List.take_take]
        simp
        omega
      rw [hmin, hn]
      by_cases h0 : rest.length = 0
      · have : rest = [] := List.length_eq_zero.mp h0
        subst this
        simp
      · rw [if_neg (by omega), if_neg (by omega), if_pos (by unfold BUFSIZE; omega)]
        simp [htake]
    · -- a full chunk: the counter never reaches INT_MAX, the loop goes on
      have hmin : min (1024 : Int) (rest.length : Int) = 1024 := by omega
      have hn : toInt 1024 = 1024 := by decide
      rw [hmin, hn]
      rw [if_neg (by decide), if_neg (by decide), if_neg (by decide)]
      have hnot : ¬ toInt (rbytes + 1024) ≥ 2147483647 := by
        unfold toInt
        omega
      rw [if_neg hnot]
      have htk : List.take (Int.toNat 1024) (List.take 1024 rest) = List.take 1024 rest := by
        simp
      simp only [htk]
      have := ih (by unfold toInt; omega) (by simp; omega)
      simpa using this

theorem read_all_at_int_max (data : List Nat) (fd timeout : Int) (fuel : Nat)
    (hfuel : data.length / 1024 + 1 ≤ fuel) :
    (mtcp_read shutdownPeer data fd 2147483647 timeout fuel).ret = Ret.bytes data := by
  have hmax : toInt 2147483647 = 2147483647 := by decide
  have := read_loop_shutdown_wrap (toInt fd) (toInt timeout) fuel data [] 0 (by decide) hfuel
  unfold mtcp_read
  simp only [hmax]
  simpa using this

/-- C11 (the code at the failing input). With `nbytes` = INT_MAX, against a
peer that sends 2147483649 bytes in chunks of 1024 and then shuts down, the
`int` counter `rbytes` overflows at 2147483648 (it wraps around to a negative
value) and never reaches `nbytes`: the successful read returns all 2147483649
bytes, more than the bound `1024 * max(1, ceil(2147483647 / 1024))`
= 2147483648. -/
theorem read_exceeds_bound_at_int_max :
    ReadsAtMostChunk shutdownPeer ∧
    (mtcp_read shutdownPeer (List.replicate 2147483649 0) 3 2147483647 10000 2097154).ret
      = Ret.bytes (List.replicate 2147483649 0) ∧
    specMaxLen 2147483647 = 2147483648 ∧
    ¬ (((List.replicate 2147483649 0 : List Nat).length : Int) ≤ specMaxLen 2147483647) := by
  have hlen : (List.replicate 2147483649 0 : List Nat).length = 2147483649 :=
    List.length_replicate _ _
  have hspec : specMaxLen 2147483647 = 2147483648 := by decide
  refine ⟨shutdownPeer_readsAtMostChunk, ?_, hspec, ?_⟩
  · apply read_all_at_int_max
    rw [hlen]
    decide
  · rw [hlen, hspec]
    decide

end Mtcp
